import Mathlib

/-!
Verification of the image-viewer front end (`assets/app.js` and its sibling
variant). The JavaScript is shallowly embedded: JSON values become an
inductive type, the stateful pager becomes explicit state passing, fetch
results become `Except`, and the DOM-rendering functions are modelled by the
data they would put on the screen.
-/

set_option autoImplicit false

namespace Viewer

/-- JSON values as parsed by `JSON.parse` / `r.json()`. Numbers are modelled
as integers (the manifests contain no fractional numbers); object key order
is the insertion order `JSON.parse` preserves. -/
inductive Json where
  | null
  | bool (b : Bool)
  | num (n : Int)
  | str (s : String)
  | arr (xs : List Json)
  | obj (kvs : List (String × Json))

/-- JavaScript truthiness of a JSON value (`!!v`). -/
def jsTruthy : Json → Bool
  | .null => false
  | .bool b => b
  | .num n => n != 0
  | .str s => s != ""
  | .arr _ => true
  | .obj _ => true

/-- Property access `obj[k]` on a JSON value: only objects yield a value,
everything else gives `undefined` (`none`); a duplicated key keeps the last
binding, as `JSON.parse` does. -/
def jsonGet : Json → String → Option Json
  | .obj kvs, k => kvs.foldl (fun acc p => if p.1 = k then some p.2 else acc) none
  | _, _ => none

mutual

/-- JavaScript `String(v)`: the conversions `String()` applies to the JSON
values that can appear in a descriptor file (arrays join their elements with
commas; objects print as `[object Object]`). -/
def jsToString : Json → String
  | .null => "null"
  | .bool true => "true"
  | .bool false => "false"
  | .num n => toString n
  | .str s => s
  | .arr xs => String.intercalate "," (jsArrElems xs)
  | .obj _ => "[object Object]"

/-- The elements of an array under `Array.prototype.join`: `null` becomes
the empty string, everything else its `String(...)` conversion. -/
def jsArrElems : List Json → List String
  | [] => []
  | .null :: js => "" :: jsArrElems js
  | j :: js => jsToString j :: jsArrElems js

end

/-- Whether a JSON value is a string. -/
def Json.isStr : Json → Bool
  | .str _ => true
  | _ => false

/-- Extract the string of a `Json.str` (unreachable default otherwise). -/
def Json.getStr : Json → String
  | .str s => s
  | _ => ""

/-- The ordered key probe of `normalizeDescriptorList`: the first key in
`ks` whose value on `j` is an array. -/
def firstArrayKey (j : Json) : List String → Option (List Json)
  | [] => none
  | k :: ks =>
    match jsonGet j k with
    | some (.arr xs) => some xs
    | _ => firstArrayKey j ks

/-- `normalizeDescriptorList(obj)` from `assets/app.js` lines 32–45: an array
is stringified elementwise; otherwise the keys `descriptors`, `attributes`,
`captions`, `descriptor_list` are probed in order for an array value; else an
object whose values are all strings yields those values; else the empty
list. -/
def normalizeDescriptorList (j : Json) : List String :=
  match j with
  | .arr xs => xs.map jsToString
  | _ =>
    match firstArrayKey j ["descriptors", "attributes", "captions", "descriptor_list"] with
    | some xs => xs.map jsToString
    | none =>
      match j with
      | .obj kvs =>
        let vals := kvs.map (·.2)
        if vals.all Json.isStr then vals.map Json.getStr else []
      | _ => []

/-- `uniq(arr)` from the source: `Array.from(new Set(arr))`, i.e. iterate the
array in order inserting into a set, keeping the first occurrence of each
element. -/
def uniq (arr : List String) : List String :=
  arr.foldl (fun acc s => if s ∈ acc then acc else acc ++ [s]) []

/-- JavaScript `String.prototype.trim()`: strip leading and trailing
whitespace (modelled on the ASCII whitespace characters the data uses). -/
def jsTrim (s : String) : String :=
  String.mk (((s.data.dropWhile Char.isWhitespace).reverse.dropWhile
    Char.isWhitespace).reverse)

/-- The descriptor post-processing of `loadDescriptorsForSpecies` line 60:
`uniq(data.map(s => String(s).trim()).filter(Boolean))`. -/
def postProcess (data : List String) : List String :=
  uniq ((data.map jsTrim).filter (fun s => s != ""))

/-- `clampIdx()` (`assets/app.js` lines 65–69): three sequential conditional
assignments on `state.idx`, with `N = state.items.length`. -/
def clampIdx (N : Nat) (idx : Int) : Int :=
  let idx1 := if N = 0 then 0 else idx
  let idx2 := if idx1 < 0 then (N : Int) - 1 else idx1
  let idx3 := if idx2 ≥ (N : Int) then 0 else idx2
  idx3

/-- The item `render()` works on: `state.items[state.idx]` after `clampIdx()`;
`undefined` (`none`) makes `render` return early, a no-op. -/
def renderItem {α : Type} (items : List α) (idx : Int) : Option α :=
  let i := clampIdx items.length idx
  items.get? i.toNat

/-- A navigation action: the prev/next buttons and arrow keys decrement or
increment `idx`; a numbered jump control assigns a target index. Each action
then calls `render()`, whose first step is `clampIdx()`. -/
inductive NavOp where
  | next
  | prev
  | jump (t : Int)

/-- One navigation action followed by the `clampIdx()` at the start of the
triggered `render()`. -/
def applyOp (N : Nat) (idx : Int) : NavOp → Int
  | .next => clampIdx N (idx + 1)
  | .prev => clampIdx N (idx - 1)
  | .jump t => clampIdx N t

/-- A numbered-button jump (both variants): `state.idx = i; render()`. -/
def buttonJump (N : Nat) (t : Int) : Int := clampIdx N t

/-- The digit-key handler of the paged variant (`part_000` lines 192–195):
keys `1`–`9` compute `i = btnPage * 9 + (digit - 1)` and jump only when
`i < state.items.length`; otherwise `idx` is untouched and no render runs. -/
def digitJump (N btnPage digit : Nat) (idx : Int) : Int :=
  let offset : Int := (digit : Int) - 1
  let i : Int := (btnPage : Int) * 9 + offset
  if i < (N : Int) then clampIdx N i else idx

/-! ### Descriptor loading and the per-species cache -/

/-- The `state.cacheDescriptors` map: species → post-processed descriptor
list. `Map.set` on a fresh key is modelled by consing; the loader only
inserts keys it has just found absent, so keys stay unique. -/
abbrev Cache := List (String × List String)

/-- `Map.has`/`Map.get` combined. -/
def cacheFind (c : Cache) (s : String) : Option (List String) :=
  (c.find? (fun p => p.1 = s)).map (·.2)

/-- The outcome of one `loadDescriptorsForSpecies` call: its return value,
the cache afterwards, how many `fetch` calls it made, and how many
`console.warn` lines it logged. -/
structure LoadOutcome where
  result : List String
  cache : Cache
  fetches : Nat
  warnings : Nat

/-- `loadDescriptorsForSpecies(species)` (`assets/app.js` lines 47–63). The
single `fetchJson` attempt it may make is passed in as `fetched`, the
settled result of that promise: `.ok` a parsed JSON body, `.error` a fetch
or parse failure. A cache hit returns immediately with no I/O; otherwise the
fetch result (empty list on caught error, with a warning logged) is
normalized, post-processed and cached before returning. -/
def loadDescriptorsForSpecies (cache : Cache) (species : String)
    (fetched : Except String Json) : LoadOutcome :=
  match cacheFind cache species with
  | some v => ⟨v, cache, 0, 0⟩
  | none =>
    let dataWarn : List String × Nat :=
      match fetched with
      | .ok obj => (normalizeDescriptorList obj, 0)
      | .error _ => ([], 1)
    let out := postProcess dataWarn.1
    ⟨out, (species, out) :: cache, 1, dataWarn.2⟩

/-- `Promise.all(otherSpecies.map(loadDescriptorsForSpecies))`: the fan-out
of independent loads, modelled sequentially (each load's value depends only
on its own species' cache entry or fetch result, so the join order is
immaterial), threading the cache. -/
def loadMany (cache : Cache) (specs : List String)
    (fetchOf : String → Except String Json) : List (List String) × Cache :=
  match specs with
  | [] => ([], cache)
  | s :: rest =>
    let r := loadDescriptorsForSpecies cache s (fetchOf s)
    let (others, c2) := loadMany r.cache rest fetchOf
    (r.result :: others, c2)

/-- What the sibling-variant `renderDescriptors` (`part_000` lines 134–153)
computes: the current species' own list and the class-only list shown in the
second panel. -/
structure DescPanels where
  myDesc : List String
  otherOnly : List String
  cache : Cache

/-- `renderDescriptors(item)` of the sibling variant. `clsName` is
`item.class_name` (`none` when absent); the guard
`(cls && state.classToSpecies[cls])` makes an absent field, a falsy (empty)
class name, or a class missing from the map yield no sibling species. -/
def renderDescriptorsCore (cache : Cache) (classToSpecies : List (String × List String))
    (species : String) (clsName : Option String)
    (fetchOf : String → Except String Json) : DescPanels :=
  let otherSpecies : List String :=
    match clsName with
    | none => []
    | some cls =>
      if cls = "" then []
      else
        match (classToSpecies.find? (fun p => p.1 = cls)).map (·.2) with
        | some lst => lst.filter (fun s => s ≠ species)
        | none => []
  let rMy := loadDescriptorsForSpecies cache species (fetchOf species)
  let loaded := if otherSpecies.isEmpty then ([], rMy.cache)
                else loadMany rMy.cache otherSpecies fetchOf
  let classDesc := if otherSpecies.isEmpty then [] else uniq loaded.1.flatten
  let otherOnly := classDesc.filter (fun d => d ∉ rMy.result)
  ⟨rMy.result, otherOnly, loaded.2⟩

/-! ### Column labels and descriptor rows (flat-strip variant) -/

/-- The loop of `toColLabel`: `while (n > 0) { r = (n-1) % 26;
s = chr(65+r) + s; n = (n-1) / 26 }`, on the character list of `s`. The
first argument is fuel making the recursion structural; since
`(n-1)/26 < n`, fuel `n` always suffices, so `toColLabel` below runs the
loop to completion exactly as the source does. -/
def toColLoop : Nat → Nat → List Char → List Char
  | 0, _, acc => acc
  | _ + 1, 0, acc => acc
  | fuel + 1, m + 1, acc =>
    toColLoop fuel (m / 26) (Char.ofNat (65 + m % 26) :: acc)

/-- `toColLabel(n0)` (`assets/app.js` lines 72–82): spreadsheet-style
bijective base-26 label of the 0-based index `n0`. -/
def toColLabel (n0 : Nat) : String :=
  String.mk (toColLoop (n0 + 1) (n0 + 1) [])

/-- A rendered descriptor row: the badge text (absent on the placeholder
row) and the main text. -/
structure DescRow where
  badge : Option String
  text : String

/-- `renderDescriptorList(listEl, descs)` (`assets/app.js` lines 121–148),
as the list of rows it appends: a single badge-less placeholder when `descs`
is empty, else one row per descriptor badged with its column label. -/
def renderDescriptorList (descs : List String) : List DescRow :=
  if descs.isEmpty then [⟨none, "No descriptors found."⟩]
  else descs.enum.map (fun p => ⟨some (toColLabel p.1), p.2⟩)

/-! ### Startup (`fetchJson`, `main`, the `.catch` handler) -/

/-- An HTTP response as `fetch` resolves it: the `ok` flag, the numeric
status, and the settled result of `r.json()` (`.error` when the body is not
valid JSON, carrying the parse error's message). -/
structure FetchResponse where
  ok : Bool
  status : Nat
  body : Except String Json

/-- `fetchJson(path)` (`assets/app.js` lines 22–26): a non-ok status throws
`Failed to fetch <path>: <status>`; otherwise the parsed body (or the parse
failure) is returned. -/
def fetchJson (path : String) (r : FetchResponse) : Except String Json :=
  if ¬ r.ok then .error ("Failed to fetch " ++ path ++ ": " ++ toString r.status)
  else r.body

/-- The elements of the items manifest (a JSON array); non-arrays never
reach the filter in the claims considered here. -/
def Json.getArr : Json → List Json
  | .arr xs => xs
  | _ => []

/-- Truthiness of the field access `x.k`: `undefined` (absent) is falsy. -/
def truthyField (x : Json) (k : String) : Bool :=
  match jsonGet x k with
  | some v => jsTruthy v
  | none => false

/-- The load-time filter of `main`:
`state.items.filter(x => x.image_path && x.species)` — an entry survives iff
both fields are present and truthy (for strings: non-empty). -/
def keepValidItems (xs : List Json) : List Json :=
  xs.filter (fun x => truthyField x "image_path" && truthyField x "species")

/-- `main()` (`assets/app.js` lines 187–197) up to its state assignment:
fetch the two manifests in order (failure propagates), then filter the
items. -/
def mainInit (r1 r2 : FetchResponse) : Except String (List Json × Json) := do
  let itemsJson ← fetchJson "data/images_index.json" r1
  let cts ← fetchJson "data/class_to_species.json" r2
  pure (keepValidItems itemsJson.getArr, cts)

/-- The `main().catch(...)` handler (lines 199–202): the text written into
the meta element on failure, `none` when startup succeeds. -/
def mainCatchMeta (r1 r2 : FetchResponse) : Option String :=
  match mainInit r1 r2 with
  | .error e => some ("Error: " ++ e)
  | .ok _ => none

/-- The pager invariant: `idx` in `[0, N)`, degenerating to `idx = 0` when
the item list is empty. -/
def validIdx (N : Nat) (idx : Int) : Prop :=
  (0 ≤ idx ∧ idx < N) ∨ (N = 0 ∧ idx = 0)

/-- The normalization order exactly as the spec words it: (a) an array is
stringified elementwise; (b) an object is probed for the first array-valued
key among `descriptors`, `attributes`, `captions`, `descriptor_list`;
(c) an object whose every value is a string yields those values; (d)
anything else yields the empty list. Stated separately from
`normalizeDescriptorList` so their equality is a theorem, not a
definition. -/
def normalizeDescriptorListSpec (j : Json) : List String :=
  match j with
  | .arr xs => xs.map jsToString
  | .obj kvs =>
    match firstArrayKey (.obj kvs)
        ["descriptors", "attributes", "captions", "descriptor_list"] with
    | some xs => xs.map jsToString
    | none =>
      let vals := kvs.map (·.2)
      if vals.all Json.isStr then vals.map Json.getStr else []
  | _ => []

/-- First-occurrence deduplication as the spec words it: keep each string's
first occurrence and drop every later repeat, preserving relative order. -/
def dedupKeepFirst : List String → List String
  | [] => []
  | s :: rest => s :: dedupKeepFirst (rest.filter (fun x => x ≠ s))
termination_by l => l.length
decreasing_by
  simp_wf
  exact Nat.lt_succ_of_le (List.length_filter_le _ _)

/-- The 1-based value of one label character (`A` = 1 … `Z` = 26). -/
def colVal (c : Char) : Nat := c.toNat - 64

/-- Reading a column label back as a bijective base-26 numeral. -/
def decodeCol (l : List Char) : Nat :=
  l.foldl (fun a c => a * 26 + colVal c) 0

theorem clampIdx_eq (N : Nat) (idx : Int) :
    clampIdx N idx =
      if N = 0 then 0
      else if idx < 0 then (N : Int) - 1
      else if (N : Int) ≤ idx then 0 else idx := by
  unfold clampIdx
  dsimp only
  split_ifs <;> omega

theorem clampIdx_valid (N : Nat) (idx : Int) : validIdx N (clampIdx N idx) := by
  unfold validIdx
  rw [clampIdx_eq]
  split_ifs <;> omega

theorem applyOp_valid (N : Nat) (idx : Int) (op : NavOp) :
    validIdx N (applyOp N idx op) := by
  cases op <;> exact clampIdx_valid N _

theorem foldl_applyOp_valid (N : Nat) (l : List NavOp) :
    ∀ idx : Int, validIdx N idx → validIdx N (l.foldl (applyOp N) idx) := by
  induction l with
  | nil => intro idx h; exact h
  | cons op rest ih =>
    intro idx _
    exact ih (applyOp N idx op) (applyOp_valid N idx op)

end Viewer

open Viewer

/-- C1: for every image count `N` and every sequence of next/previous/jump
operations starting from a valid state, after each operation's render step
the index lies in `[0, N)`; when `N = 0` the index is forced to `0` and
rendering is a no-op (`render` returns before touching the DOM). -/
theorem C1_idx_invariant (N : Nat) (ops : List NavOp) (idx0 : Int)
    (h0 : validIdx N idx0) :
    (∀ k : Nat, validIdx N ((ops.take k).foldl (applyOp N) idx0)) ∧
    (N = 0 →
      (∀ k : Nat, (ops.take k).foldl (applyOp N) idx0 = 0) ∧
      (∀ (items : List Json) (idx : Int), items.length = 0 →
        renderItem items idx = none)) := by
  refine ⟨fun k => foldl_applyOp_valid N (ops.take k) idx0 h0, fun hN => ⟨?_, ?_⟩⟩
  · intro k
    have h := foldl_applyOp_valid N (ops.take k) idx0 h0
    unfold validIdx at h
    omega
  · intro items idx hlen
    have : items = [] := List.eq_nil_of_length_eq_zero hlen
    subst this
    simp [renderItem]

theorem C1_idx_invariant_witness :
    validIdx 3 0 ∧
    validIdx 3 (([NavOp.next, NavOp.prev, NavOp.jump 7].take 3).foldl (applyOp 3) 0) :=
  ⟨Or.inl (by decide),
   (C1_idx_invariant 3 [NavOp.next, NavOp.prev, NavOp.jump 7] 0 (Or.inl (by decide))).1 3⟩

/-- C2: from any valid index of a non-empty list, Next then Previous (and
Previous then Next) is the identity, and each single step is exactly
`±1` modulo `N`. -/
theorem C2_next_prev_inverse (N : Nat) (idx : Int)
    (h1 : 0 ≤ idx) (h2 : idx < N) :
    applyOp N (applyOp N idx .next) .prev = idx ∧
    applyOp N (applyOp N idx .prev) .next = idx ∧
    applyOp N idx .next = (idx + 1) % (N : Int) ∧
    applyOp N idx .prev = (idx - 1) % (N : Int) := by
  have hN : (0 : Int) < N := by omega
  have hnext : applyOp N idx .next = if idx + 1 = N then 0 else idx + 1 := by
    simp only [applyOp]
    rw [clampIdx_eq]
    split_ifs <;> omega
  have hprev : applyOp N idx .prev = if idx = 0 then (N : Int) - 1 else idx - 1 := by
    simp only [applyOp]
    rw [clampIdx_eq]
    split_ifs <;> omega
  refine ⟨?_, ?_, ?_, ?_⟩
  · rw [hnext]
    split_ifs with h
    · simp only [applyOp]; rw [clampIdx_eq]; split_ifs <;> omega
    · simp only [applyOp]; rw [clampIdx_eq]; split_ifs <;> omega
  · rw [hprev]
    split_ifs with h
    · simp only [applyOp]; rw [clampIdx_eq]; split_ifs <;> omega
    · simp only [applyOp]; rw [clampIdx_eq]; split_ifs <;> omega
  · rw [hnext]
    split_ifs with h
    · rw [h, Int.emod_self]
    · exact (Int.emod_eq_of_lt (by omega) (by omega)).symm
  · rw [hprev]
    split_ifs with h
    · subst h
      have h1 : ((0 : Int) - 1) % (N : Int) = ((0 : Int) - 1 + (N : Int) * 1) % (N : Int) :=
        (Int.add_mul_emod_self_left (0 - 1) (N : Int) 1).symm
      rw [h1]
      have h2 : (0 : Int) - 1 + (N : Int) * 1 = (N : Int) - 1 := by ring
      rw [h2, Int.emod_eq_of_lt (by omega) (by omega)]
    · exact (Int.emod_eq_of_lt (by omega) (by omega)).symm

theorem C2_next_prev_inverse_witness :
    (0 : Int) ≤ 4 ∧ (4 : Int) < (5 : Nat) ∧
    applyOp 5 (applyOp 5 4 .next) .prev = 4 :=
  ⟨by decide, by decide, (C2_next_prev_inverse 5 4 (by decide) (by decide)).1⟩

/-- C3 fails as stated: on the paged variant with 10 items, button page 1
and key `9`, the computed target is `1 * 9 + (9 - 1) = 17`; the claim's
clamp/wrap rule would send the index to `0`, but the code's guard
`i < state.items.length` suppresses the jump and leaves `idx = 5`
unchanged. -/
theorem C3_counterexample :
    digitJump 10 1 9 5 ≠ clampIdx 10 ((1 : Int) * 9 + ((9 : Int) - 1)) := by
  decide

/-- C3 amended: a numbered-button jump sets `idx` to the target and applies
the clamp/wrap rule (below `0` wraps to `N - 1`, at or above `N` wraps to
`0`); a keyboard digit `d ∈ 1..9` computes the target `9 * page + (d - 1)`
and jumps to it only when it is below `N`, otherwise the key press leaves
`idx` unchanged. -/
theorem C3_amended_jump (N : Nat) (hN : 0 < N) :
    (∀ t : Int, buttonJump N t =
      if t < 0 then (N : Int) - 1 else if (N : Int) ≤ t then 0 else t) ∧
    (∀ (btnPage digit : Nat) (idx : Int), 1 ≤ digit →
      digitJump N btnPage digit idx =
        if (btnPage : Int) * 9 + ((digit : Int) - 1) < (N : Int)
        then (btnPage : Int) * 9 + ((digit : Int) - 1)
        else idx) := by
  constructor
  · intro t
    simp only [buttonJump]
    rw [clampIdx_eq]
    split_ifs <;> omega
  · intro btnPage digit idx hd
    simp only [digitJump]
    rw [clampIdx_eq]
    split_ifs <;> omega

theorem C3_amended_jump_witness :
    0 < 10 ∧ buttonJump 10 (-1) = 9 ∧ digitJump 10 1 9 5 = 5 := by
  refine ⟨by decide, ?_, ?_⟩
  · rw [(C3_amended_jump 10 (by decide)).1 (-1)]; decide
  · rw [(C3_amended_jump 10 (by decide)).2 1 9 5 (by decide)]; decide


/-- C4: `normalizeDescriptorList` tries the spec's shapes in its fixed
order — array elementwise-stringified; first array-valued key among
`descriptors`, `attributes`, `captions`, `descriptor_list`; object of
all-string values; else empty. -/
theorem C4_normalize_order :
    ∀ j : Json, normalizeDescriptorList j = normalizeDescriptorListSpec j := by
  intro j
  cases j with
  | arr xs => rfl
  | obj kvs =>
    cases hfa : firstArrayKey (.obj kvs)
        ["descriptors", "attributes", "captions", "descriptor_list"] with
    | none => simp [normalizeDescriptorList, normalizeDescriptorListSpec, hfa]
    | some xs => simp [normalizeDescriptorList, normalizeDescriptorListSpec, hfa]
  | null => rfl
  | bool b => rfl
  | num n => rfl
  | str s => rfl

theorem uniq_foldl (l : List String) : ∀ acc : List String,
    l.foldl (fun acc s => if s ∈ acc then acc else acc ++ [s]) acc
      = acc ++ dedupKeepFirst (l.filter (fun s => s ∉ acc)) := by
  induction l with
  | nil => intro acc; simp [dedupKeepFirst]
  | cons s rest ih =>
    intro acc
    simp only [List.foldl_cons, List.filter_cons]
    by_cases h : s ∈ acc
    · rw [if_pos h]
      have hd : (decide (s ∉ acc)) = false := by simp [h]
      rw [hd]
      simp only [Bool.false_eq_true, if_false]
      exact ih acc
    · rw [if_neg h]
      have hd : (decide (s ∉ acc)) = true := by simp [h]
      rw [hd]
      simp only [if_true]
      rw [ih (acc ++ [s])]
      rw [dedupKeepFirst]
      have hfilter : rest.filter (fun x => x ∉ acc ++ [s])
          = (rest.filter (fun x => x ∉ acc)).filter (fun x => x ≠ s) := by
        rw [List.filter_filter]
        apply List.filter_congr
        intro a _
        simp only [List.mem_append, List.mem_singleton, not_or,
          Bool.decide_and, decide_not]
        exact Bool.and_comm _ _
      rw [hfilter, List.append_assoc]
      rfl

theorem uniq_eq_dedupKeepFirst (l : List String) : uniq l = dedupKeepFirst l := by
  have h := uniq_foldl l []
  simpa [uniq] using h

theorem mem_uniq_aux (l : List String) : ∀ (acc : List String) (x : String),
    x ∈ l.foldl (fun acc s => if s ∈ acc then acc else acc ++ [s]) acc
      ↔ x ∈ acc ∨ x ∈ l := by
  induction l with
  | nil => intro acc x; simp
  | cons s rest ih =>
    intro acc x
    simp only [List.foldl_cons]
    by_cases h : s ∈ acc
    · rw [if_pos h, ih]
      simp only [List.mem_cons]
      constructor
      · rintro (hx | hx)
        · exact Or.inl hx
        · exact Or.inr (Or.inr hx)
      · rintro (hx | rfl | hx)
        · exact Or.inl hx
        · exact Or.inl h
        · exact Or.inr hx
    · rw [if_neg h, ih]
      simp only [List.mem_append, List.mem_cons, List.mem_singleton]
      tauto

theorem mem_uniq (l : List String) (x : String) : x ∈ uniq l ↔ x ∈ l := by
  have h := mem_uniq_aux l [] x
  simpa [uniq] using h

/-- C5: the descriptor post-processing trims every string, drops the ones
that become empty, and removes duplicates keeping the first occurrence in
its original relative order; in particular `["b","a","b","c","a"]` yields
`["b","a","c"]`, and the payload `{"attributes": ["spotted", "spotted",
" striped "]}` yields `["spotted", "striped"]`. -/
theorem C5_postprocess_dedup :
    (∀ data : List String, postProcess data
      = dedupKeepFirst ((data.map jsTrim).filter (fun s => s != ""))) ∧
    postProcess ["b", "a", "b", "c", "a"] = ["b", "a", "c"] ∧
    postProcess (normalizeDescriptorList (.obj [("attributes",
        .arr [.str "spotted", .str "spotted", .str " striped "])]))
      = ["spotted", "striped"] := by
  refine ⟨fun data => ?_, by decide, by decide⟩
  simpa [postProcess] using
    uniq_eq_dedupKeepFirst ((data.map jsTrim).filter (fun s => s != ""))

/-- C6: an uncached load whose fetch (or JSON parse) fails is caught: the
call logs one warning, returns the empty list (caching it), and — being a
total function of its inputs — propagates no error to the caller, so
browsing is not blocked. -/
theorem C6_descriptor_failure_nonfatal (cache : Cache) (species msg : String)
    (h : cacheFind cache species = none) :
    loadDescriptorsForSpecies cache species (.error msg)
      = ⟨[], (species, []) :: cache, 1, 1⟩ := by
  simp [loadDescriptorsForSpecies, h, postProcess, uniq]

theorem C6_descriptor_failure_nonfatal_witness :
    cacheFind [] "abc" = none ∧
    loadDescriptorsForSpecies [] "abc"
        (.error "Failed to fetch descriptors/abc.json: 404")
      = ⟨[], [("abc", [])], 1, 1⟩ :=
  ⟨rfl, C6_descriptor_failure_nonfatal [] "abc" _ rfl⟩

theorem load_cached (c : Cache) (species : String) (v : List String)
    (g : Except String Json) (h : cacheFind c species = some v) :
    loadDescriptorsForSpecies c species g = ⟨v, c, 0, 0⟩ := by
  simp [loadDescriptorsForSpecies, h]

/-- C7: a first, uncached call fetches exactly once and stores its result;
a second call for the same species finds the cache populated, performs no
fetch, and returns the stored value with the cache unchanged — and in
general any call that finds the species cached is pure cache lookup, so the
entry is never invalidated. -/
theorem C7_cache_single_fetch (cache : Cache) (species : String)
    (f f2 : Except String Json) (h : cacheFind cache species = none) :
    (loadDescriptorsForSpecies cache species f).fetches = 1 ∧
    loadDescriptorsForSpecies
        (loadDescriptorsForSpecies cache species f).cache species f2
      = ⟨(loadDescriptorsForSpecies cache species f).result,
         (loadDescriptorsForSpecies cache species f).cache, 0, 0⟩ ∧
    (loadDescriptorsForSpecies cache species f).fetches
      + (loadDescriptorsForSpecies
          (loadDescriptorsForSpecies cache species f).cache species f2).fetches
      = 1 ∧
    (∀ (c : Cache) (v : List String) (g : Except String Json),
      cacheFind c species = some v →
      loadDescriptorsForSpecies c species g = ⟨v, c, 0, 0⟩) := by
  have hcons : ∀ (c : Cache) (s : String) (v : List String),
      cacheFind ((s, v) :: c) s = some v := by
    intro c s v
    simp [cacheFind, List.find?_cons]
  have hc2 : cacheFind (loadDescriptorsForSpecies cache species f).cache species
      = some (loadDescriptorsForSpecies cache species f).result := by
    cases hf : f <;> simp [loadDescriptorsForSpecies, h, hcons]
  have hfetch : (loadDescriptorsForSpecies cache species f).fetches = 1 := by
    cases hf : f <;> simp [loadDescriptorsForSpecies, h, hf]
  have hsecond := load_cached _ species _ f2 hc2
  refine ⟨hfetch, hsecond, ?_, fun c v g hv => load_cached c species v g hv⟩
  rw [hfetch, hsecond]
  rfl

theorem C7_cache_single_fetch_witness :
    cacheFind [] "sp" = none ∧
    (loadDescriptorsForSpecies [] "sp" (.ok (.arr [.str "a"]))).fetches = 1 ∧
    loadDescriptorsForSpecies
        (loadDescriptorsForSpecies [] "sp" (.ok (.arr [.str "a"]))).cache "sp"
        (.error "changed")
      = ⟨(loadDescriptorsForSpecies [] "sp" (.ok (.arr [.str "a"]))).result,
         (loadDescriptorsForSpecies [] "sp" (.ok (.arr [.str "a"]))).cache,
         0, 0⟩ := by
  have h := C7_cache_single_fetch [] "sp" (.ok (.arr [.str "a"]))
    (.error "changed") rfl
  exact ⟨rfl, h.1, h.2.1⟩

theorem loadMany_all_cached (fetchOf : String → Except String Json)
    (g : String → List String) :
    ∀ (specs : List String) (cache : Cache),
      (∀ s ∈ specs, cacheFind cache s = some (g s)) →
      loadMany cache specs fetchOf = (specs.map g, cache) := by
  intro specs
  induction specs with
  | nil => intro cache _; rfl
  | cons s rest ih =>
    intro cache hall
    have hs := hall s (List.mem_cons_self s rest)
    have hr := load_cached cache s (g s) (fetchOf s) hs
    simp [loadMany, hr, ih cache (fun x hx => hall x (List.mem_cons_of_mem _ hx))]


theorem renderDescriptorsCore_resolved
    (cache : Cache) (ctos : List (String × List String))
    (species cls : String) (siblings : List String)
    (fetchOf : String → Except String Json)
    (hcls : cls ≠ "")
    (hmap : (ctos.find? (fun p => p.1 = cls)).map (·.2) = some siblings) :
    renderDescriptorsCore cache ctos species (some cls) fetchOf
      = (let osp := siblings.filter (fun s => s ≠ species)
         let rMy := loadDescriptorsForSpecies cache species (fetchOf species)
         let loaded := if osp.isEmpty then (([] : List (List String)), rMy.cache)
                       else loadMany rMy.cache osp fetchOf
         let classDesc := if osp.isEmpty then [] else uniq loaded.1.flatten
         ⟨rMy.result, classDesc.filter (fun d => d ∉ rMy.result), loaded.2⟩) := by
  unfold renderDescriptorsCore
  dsimp only
  rw [if_neg hcls, hmap]

/-- C8: in the sibling-descriptor variant, when the current entry's
`class_name` resolves in the class-to-species map, the class-only list is
the deduplicated union of the descriptor lists of the other species of the
class (the current species excluded) minus every descriptor in the current
species' own list — stated both as the literal filter expression and as a
membership characterization — and the spec's concrete scenario (class map
`0 ↦ [a,b,c]`, current species `b` with own list `[x]`, sibling lists `[x]`
and `[y]`) yields `["y"]`. -/
theorem C8_class_only_descriptors
    (cache : Cache) (ctos : List (String × List String))
    (species cls : String) (siblings own : List String)
    (g : String → List String) (fetchOf : String → Except String Json)
    (hcls : cls ≠ "")
    (hmap : (ctos.find? (fun p => p.1 = cls)).map (·.2) = some siblings)
    (hown : cacheFind cache species = some own)
    (hsib : ∀ s ∈ siblings.filter (fun s => s ≠ species),
      cacheFind cache s = some (g s)) :
    (renderDescriptorsCore cache ctos species (some cls) fetchOf).myDesc = own ∧
    (renderDescriptorsCore cache ctos species (some cls) fetchOf).otherOnly
      = (uniq ((siblings.filter (fun s => s ≠ species)).map g).flatten).filter
          (fun d => d ∉ own) ∧
    (∀ d, d ∈ (renderDescriptorsCore cache ctos species (some cls) fetchOf).otherOnly
      ↔ ((∃ s ∈ siblings, s ≠ species ∧ d ∈ g s) ∧ d ∉ own)) ∧
    (renderDescriptorsCore [("a", ["x"]), ("b", ["x"]), ("c", ["y"])]
        [("0", ["a", "b", "c"])] "b" (some "0")
        (fun _ => .error "unused")).otherOnly = ["y"] := by
  have hmy := load_cached cache species own (fetchOf species) hown
  have hall := loadMany_all_cached fetchOf g
    (siblings.filter (fun s => s ≠ species)) cache hsib
  have hres := renderDescriptorsCore_resolved cache ctos species cls siblings
    fetchOf hcls hmap
  rw [hmy] at hres
  dsimp only at hres
  have hpair : (renderDescriptorsCore cache ctos species (some cls) fetchOf).myDesc
        = own ∧
      (renderDescriptorsCore cache ctos species (some cls) fetchOf).otherOnly
        = (uniq ((siblings.filter (fun s => s ≠ species)).map g).flatten).filter
            (fun d => d ∉ own) := by
    by_cases hemp : (siblings.filter (fun s => s ≠ species)).isEmpty
    · have hnil : siblings.filter (fun s => s ≠ species) = [] :=
        List.isEmpty_iff.mp hemp
      rw [hnil] at hres ⊢
      simp only [List.isEmpty_nil, if_true, List.map_nil] at hres ⊢
      rw [hres]
      simp [uniq]
    · have hne : (siblings.filter (fun s => s ≠ species)).isEmpty = false :=
        Bool.eq_false_iff.mpr hemp
      rw [hne] at hres
      simp only [Bool.false_eq_true, if_false] at hres
      rw [hall] at hres
      rw [hres]
      exact ⟨rfl, rfl⟩
  refine ⟨hpair.1, hpair.2, ?_, by decide⟩
  intro d
  rw [hpair.2]
  simp only [List.mem_filter, mem_uniq, List.mem_flatten, List.mem_map,
    decide_not, Bool.not_eq_eq_eq_not, Bool.not_true, decide_eq_false_iff_not,
    decide_eq_true_eq, ne_eq]
  constructor
  · rintro ⟨⟨l, ⟨s, ⟨hs, hsne⟩, rfl⟩, hdl⟩, hnotown⟩
    exact ⟨⟨s, hs, hsne, hdl⟩, hnotown⟩
  · rintro ⟨⟨s, hs, hsne, hmem⟩, hnotown⟩
    exact ⟨⟨g s, ⟨s, ⟨hs, hsne⟩, rfl⟩, hmem⟩, hnotown⟩

theorem C8_class_only_descriptors_witness :
    (renderDescriptorsCore [("a", ["x"]), ("b", ["x"]), ("c", ["y"])]
        [("0", ["a", "b", "c"])] "b" (some "0")
        (fun _ => .error "unused")).myDesc = ["x"] ∧
    (renderDescriptorsCore [("a", ["x"]), ("b", ["x"]), ("c", ["y"])]
        [("0", ["a", "b", "c"])] "b" (some "0")
        (fun _ => .error "unused")).otherOnly = ["y"] := by
  have h := C8_class_only_descriptors
    [("a", ["x"]), ("b", ["x"]), ("c", ["y"])] [("0", ["a", "b", "c"])]
    "b" "0" ["a", "b", "c"] ["x"]
    (fun s => if s = "a" then ["x"] else if s = "c" then ["y"] else [])
    (fun _ => .error "unused")
    (by decide) (by decide) (by decide)
    (by intro s hs; fin_cases hs <;> decide)
  exact ⟨h.1, h.2.2.2⟩

/-- C9: a non-success status or invalid JSON on either core manifest makes
`fetchJson` raise, the error propagates out of `main`, and the `.catch`
handler writes `Error: <message>` into the meta element; when both manifests
load, entries lacking a truthy (for strings: non-empty) `image_path` or
`species` are dropped by the filter with no error raised. -/
theorem C9_startup_error_handling :
    (∀ r1 r2 : FetchResponse, r1.ok = false →
      mainCatchMeta r1 r2
        = some ("Error: " ++ ("Failed to fetch data/images_index.json: "
            ++ toString r1.status))) ∧
    (∀ (r1 r2 : FetchResponse) (m : String), r1.ok = true → r1.body = .error m →
      mainCatchMeta r1 r2 = some ("Error: " ++ m)) ∧
    (∀ (r1 r2 : FetchResponse) (j : Json), r1.ok = true → r1.body = .ok j →
      r2.ok = false →
      mainCatchMeta r1 r2
        = some ("Error: " ++ ("Failed to fetch data/class_to_species.json: "
            ++ toString r2.status))) ∧
    (∀ (r1 r2 : FetchResponse) (j : Json) (m : String), r1.ok = true →
      r1.body = .ok j → r2.ok = true → r2.body = .error m →
      mainCatchMeta r1 r2 = some ("Error: " ++ m)) ∧
    (∀ (r1 r2 : FetchResponse) (xs : List Json) (cts : Json), r1.ok = true →
      r1.body = .ok (.arr xs) → r2.ok = true → r2.body = .ok cts →
      mainInit r1 r2 = .ok (keepValidItems xs, cts) ∧
      mainCatchMeta r1 r2 = none) ∧
    (∀ (xs : List Json) (x : Json), x ∈ keepValidItems xs
      ↔ x ∈ xs ∧ truthyField x "image_path" = true
          ∧ truthyField x "species" = true) ∧
    (∀ s : String, jsTruthy (.str s) = true ↔ s ≠ "") := by
  refine ⟨?_, ?_, ?_, ?_, ?_, ?_, ?_⟩
  · intro r1 r2 h1
    simp [mainCatchMeta, mainInit, fetchJson, h1, Bind.bind, Except.bind]
  · intro r1 r2 m h1 hb
    simp [mainCatchMeta, mainInit, fetchJson, h1, hb, Bind.bind, Except.bind]
  · intro r1 r2 j h1 hb h2
    simp [mainCatchMeta, mainInit, fetchJson, h1, hb, h2, Bind.bind, Except.bind, Functor.map, Except.map]
  · intro r1 r2 j m h1 hb1 h2 hb2
    simp [mainCatchMeta, mainInit, fetchJson, h1, hb1, h2, hb2, Bind.bind, Except.bind, Functor.map, Except.map]
  · intro r1 r2 xs cts h1 hb1 h2 hb2
    constructor
    · simp [mainInit, fetchJson, h1, hb1, h2, hb2, Json.getArr, Bind.bind, Except.bind, Functor.map, Except.map, Pure.pure, Except.pure]
    · simp [mainCatchMeta, mainInit, fetchJson, h1, hb1, h2, hb2, Bind.bind, Except.bind, Functor.map, Except.map, Pure.pure, Except.pure]
  · intro xs x
    simp [keepValidItems, List.mem_filter]
  · intro s
    simp [jsTruthy]

theorem C9_startup_error_handling_witness :
    mainCatchMeta ⟨false, 404, .ok .null⟩ ⟨true, 200, .ok .null⟩
      = some ("Error: " ++ ("Failed to fetch data/images_index.json: "
          ++ toString (404 : Nat))) :=
  C9_startup_error_handling.1 ⟨false, 404, .ok .null⟩ ⟨true, 200, .ok .null⟩ rfl

theorem toNat_ofNat_valid (n : Nat) (h : n < 55296) : (Char.ofNat n).toNat = n := by
  rw [Char.ofNat, dif_pos (Or.inl h : Nat.isValidChar n)]
  rfl

theorem decodeCol_foldl (acc : List Char) : ∀ x : Nat,
    acc.foldl (fun a c => a * 26 + colVal c) x
      = x * 26 ^ acc.length + decodeCol acc := by
  induction acc with
  | nil => intro x; simp [decodeCol]
  | cons c cs ih =>
    intro x
    simp only [List.foldl_cons, List.length_cons, decodeCol]
    rw [ih (x * 26 + colVal c), ih (0 * 26 + colVal c)]
    ring

theorem decode_toColLoop : ∀ (fuel n : Nat), n ≤ fuel → ∀ acc : List Char,
    decodeCol (toColLoop fuel n acc) = n * 26 ^ acc.length + decodeCol acc := by
  intro fuel
  induction fuel with
  | zero =>
    intro n hn acc
    have : n = 0 := by omega
    subst this
    simp [toColLoop]
  | succ f ih =>
    intro n hn acc
    cases n with
    | zero => simp [toColLoop]
    | succ m =>
      have hstep : toColLoop (f + 1) (m + 1) acc
          = toColLoop f (m / 26) (Char.ofNat (65 + m % 26) :: acc) := rfl
      have hle : m / 26 ≤ f := le_trans (Nat.div_le_self m 26) (by omega)
      rw [hstep, ih (m / 26) hle (Char.ofNat (65 + m % 26) :: acc)]
      have hval : colVal (Char.ofNat (65 + m % 26)) = m % 26 + 1 := by
        unfold colVal
        rw [toNat_ofNat_valid _ (by omega)]
        omega
      have hcons : decodeCol (Char.ofNat (65 + m % 26) :: acc)
          = (m % 26 + 1) * 26 ^ acc.length + decodeCol acc := by
        have h0 : decodeCol (Char.ofNat (65 + m % 26) :: acc)
            = acc.foldl (fun a c => a * 26 + colVal c)
                (0 * 26 + colVal (Char.ofNat (65 + m % 26))) := rfl
        rw [h0, decodeCol_foldl acc, hval]
        ring
      rw [hcons, List.length_cons, pow_succ]
      have harith : m / 26 * (26 ^ acc.length * 26)
            + ((m % 26 + 1) * 26 ^ acc.length + decodeCol acc)
          = (26 * (m / 26) + m % 26 + 1) * 26 ^ acc.length + decodeCol acc := by
        ring
      rw [harith, Nat.div_add_mod]

theorem decode_toColLabel (n : Nat) :
    decodeCol (toColLoop (n + 1) (n + 1) []) = n + 1 := by
  have h := decode_toColLoop (n + 1) (n + 1) (le_refl _) []
  simpa [decodeCol] using h

theorem toColLabel_injective : Function.Injective toColLabel := by
  intro a b hab
  unfold toColLabel at hab
  have hdata : toColLoop (a + 1) (a + 1) [] = toColLoop (b + 1) (b + 1) [] :=
    congrArg String.data hab
  have hdec := congrArg decodeCol hdata
  rw [decode_toColLabel a, decode_toColLabel b] at hdec
  omega

/-- C10: in the flat-strip variant every descriptor row `i` is badged with
the spreadsheet-style bijective base-26 label of `i` (`A`, …, `Z`, `AA`, …),
`toColLabel` is injective over all indices, and therefore the rows of any
rendered list carry pairwise-distinct badges. -/
theorem C10_column_labels :
    toColLabel 0 = "A" ∧ toColLabel 25 = "Z" ∧ toColLabel 26 = "AA" ∧
    Function.Injective toColLabel ∧
    (∀ descs : List String, descs ≠ [] →
      (renderDescriptorList descs).map DescRow.badge
        = (List.range descs.length).map (fun i => some (toColLabel i))) ∧
    (∀ descs : List String,
      ((renderDescriptorList descs).map DescRow.badge).Nodup) := by
  refine ⟨by decide, by decide, by decide, toColLabel_injective, ?_, ?_⟩
  · intro descs hne
    have h : descs.isEmpty = false := by
      cases descs with
      | nil => exact absurd rfl hne
      | cons a as => rfl
    simp only [renderDescriptorList, h, Bool.false_eq_true, if_false,
      List.map_map]
    rw [← List.enum_map_fst descs, List.map_map]
    rfl
  · intro descs
    by_cases hne : descs = []
    · subst hne; decide
    · have h : descs.isEmpty = false := by
        cases descs with
        | nil => exact absurd rfl hne
        | cons a as => rfl
      simp only [renderDescriptorList, h, Bool.false_eq_true, if_false,
        List.map_map]
      have hmm : (DescRow.badge ∘ fun p : Nat × String =>
            (⟨some (toColLabel p.1), p.2⟩ : DescRow))
          = (fun i : Nat => some (toColLabel i)) ∘ Prod.fst := rfl
      rw [hmm, ← List.map_map, List.enum_map_fst]
      apply List.Nodup.map
      · exact fun a b hab => toColLabel_injective (Option.some_injective _ hab)
      · exact List.nodup_range _

theorem C10_column_labels_witness :
    ((["a", "b"] : List String) ≠ []) ∧
    (renderDescriptorList ["a", "b"]).map DescRow.badge
      = (List.range 2).map (fun i => some (toColLabel i)) ∧
    (27 : Nat) = 27 := by
  refine ⟨by decide, ?_, ?_⟩
  · exact C10_column_labels.2.2.2.2.1 ["a", "b"] (by decide)
  · exact C10_column_labels.2.2.2.1 (rfl : toColLabel 27 = toColLabel 27)
